import Mathlib

/-!
Verification of the semantic SVG layout resolver (`generator-semantic`).

Shallow embedding notes:
* JS numbers are modelled as rationals (`ℚ`).  The only irrational constant the
  source uses is `Math.sqrt(3)` (triangle heights); it is passed everywhere as
  an explicit parameter `sqrt3`, so every definition stays computable and every
  property that holds for all values of `sqrt3` holds in particular for √3.
* The module-level mutable `calculatedShapes` map is threaded explicitly: a JS
  `Map` whose `set` overwrites an existing key is modelled as an association
  list where the *last* binding for a key wins (`mapGet` scans from the tail).
* Exceptions (`throw new Error(...)`) are modelled with `Except String`.
* The unbounded recursion of `processLayer` (which the source performs on the
  call stack) is modelled with explicit fuel; running out of fuel corresponds
  to the stack overflow the JS engine raises on a reference cycle.
* SVG string templating (`layerToSvg`, the final `svg.join`) is a direct
  order-preserving string template with no decision logic; the embedding
  returns the list of resolved records (center and bounds per layer, in
  dependency order) that the template would print.
-/

namespace AiSvg

/-- Triangle sub-kinds (`triangleType` in `schema-semantic`). -/
inductive TriangleType
  | equilateral
  | isosceles
  | rightTriangle
deriving DecidableEq

/-- Triangle orientations (`orientation` in `schema-semantic`). -/
inductive Orientation
  | pointing_up
  | pointing_down
  | pointing_left
  | pointing_right
deriving DecidableEq

/-- Alignment vocabulary for relative positioning (`Alignment` in `schema-semantic`). -/
inductive Alignment
  | tip_touches_left
  | tip_touches_right
  | tip_touches_top
  | tip_touches_bottom
  | edge_touches_left
  | edge_touches_right
  | edge_touches_top
  | edge_touches_bottom
  | center_aligned
  | adjacent_left
  | adjacent_right
deriving DecidableEq

/-- Position kinds (`PositionType` in `schema-semantic`). -/
inductive PositionType
  | absolute
  | relativePos
  | centered
deriving DecidableEq

/-- A layer's position intent (`Position` in `schema-semantic`).
Optional JS fields are `Option`s. -/
structure Position where
  type : PositionType
  x : Option ℚ := none
  y : Option ℚ := none
  relativeTo : Option String := none
  alignment : Option Alignment := none
  offset : Option ℚ := none
deriving DecidableEq

/-- Tagged union of shape kinds (`ShapeDefinition` in `schema-semantic`). -/
inductive ShapeDefinition
  | triangle (triangleType : TriangleType) (orientation : Orientation) (size : ℚ)
  | rectangle (width height : ℚ) (rounded : Option ℚ)
  | circle (radius : ℚ)
  | ellipse (radiusX radiusY : ℚ)
  | line (length angle : ℚ)
  | diamond (size : ℚ)
deriving DecidableEq

/-- Styling record (`ShapeStyle` in `schema-semantic`); inert for layout. -/
structure ShapeStyle where
  fill : Option String := none
  stroke : Option String := none
  strokeWidth : Option ℚ := none
  opacity : Option ℚ := none
deriving DecidableEq

/-- One semantic layer (`SemanticLayer` in `schema-semantic`). -/
structure SemanticLayer where
  id : String
  shape : ShapeDefinition
  position : Position
  style : ShapeStyle := {}
  description : Option String := none
deriving DecidableEq

/-- Canvas size of a specification. -/
structure CanvasSize where
  width : ℚ
  height : ℚ
deriving DecidableEq

/-- A complete semantic specification (`SemanticSvgSpec` in `schema-semantic`). -/
structure SemanticSvgSpec where
  name : String
  description : String
  canvasSize : CanvasSize
  layers : List SemanticLayer
deriving DecidableEq

/-- Axis-aligned bounding box of a resolved shape. -/
structure Bounds where
  left : ℚ
  right : ℚ
  top : ℚ
  bottom : ℚ
deriving DecidableEq

/-- A resolved placement (`CalculatedShape` in `generator-semantic`). -/
structure CalculatedShape where
  id : String
  centerX : ℚ
  centerY : ℚ
  bounds : Bounds
deriving DecidableEq

/-- A point returned by `calculatePosition`. -/
structure Point where
  x : ℚ
  y : ℚ
deriving DecidableEq

/-- The `calculatedShapes` map: association list where the last binding for a
key wins, matching `Map.set`/`Map.get`. -/
abbrev ShapeMap := List (String × CalculatedShape)

/-- `Map.get`: the last binding for the key, if any. -/
def mapGet : ShapeMap → String → Option CalculatedShape
  | [], _ => none
  | (k', v) :: m, k =>
    match mapGet m k with
    | some r => some r
    | none => if k' = k then some v else none

/-- `Map.set`: append a binding; `mapGet` prefers later bindings. -/
def mapSet (m : ShapeMap) (k : String) (v : CalculatedShape) : ShapeMap :=
  m ++ [(k, v)]

/-- Keys of a `ShapeMap`. -/
def keysOf (m : ShapeMap) : List String :=
  m.map Prod.fst

/-- The `new Map(layers.map(l => [l.id, l]))` lookup: the last layer with the
given id, if any (later `Map.set`s overwrite earlier ones). -/
def layerMapGet : List SemanticLayer → String → Option SemanticLayer
  | [], _ => none
  | l :: ls, k =>
    match layerMapGet ls k with
    | some r => some r
    | none => if l.id = k then some l else none

/-- The ids of a layer list, in order. -/
def idsOf (layers : List SemanticLayer) : List String :=
  layers.map (fun l => l.id)

/-- The JS guard `position.type === 'relative' && position.relativeTo`:
returns the referent id when the position is relative and `relativeTo` is a
truthy (present, non-empty) string. -/
def refId (layer : SemanticLayer) : Option String :=
  match layer.position.type, layer.position.relativeTo with
  | PositionType.relativePos, some rid => if rid = "" then none else some rid
  | _, _ => none

/-- `calculateTriangle`: the polygon points emitted for a triangle shape, as
the list of vertices the source's string template prints, in order.  For a
non-triangle or non-equilateral shape the source falls back to a fixed
placeholder triangle. -/
def calculateTriangle (sqrt3 : ℚ) (shape : ShapeDefinition) (centerX centerY : ℚ) :
    List Point :=
  match shape with
  | ShapeDefinition.triangle tt o size =>
    if tt = TriangleType.equilateral then
      let height := size * sqrt3 / 2
      match o with
      | Orientation.pointing_right =>
        [⟨centerX - size / 2, centerY - height / 2⟩,
         ⟨centerX - size / 2, centerY + height / 2⟩,
         ⟨centerX + size / 2, centerY⟩]
      | Orientation.pointing_left =>
        [⟨centerX + size / 2, centerY - height / 2⟩,
         ⟨centerX + size / 2, centerY + height / 2⟩,
         ⟨centerX - size / 2, centerY⟩]
      | Orientation.pointing_up =>
        [⟨centerX, centerY - height / 2⟩,
         ⟨centerX - size / 2, centerY + height / 2⟩,
         ⟨centerX + size / 2, centerY + height / 2⟩]
      | Orientation.pointing_down =>
        [⟨centerX, centerY + height / 2⟩,
         ⟨centerX - size / 2, centerY - height / 2⟩,
         ⟨centerX + size / 2, centerY - height / 2⟩]
    else
      [⟨centerX, centerY - 50⟩, ⟨centerX - 50, centerY + 50⟩, ⟨centerX + 50, centerY + 50⟩]
  | _ =>
    [⟨centerX, centerY - 50⟩, ⟨centerX - 50, centerY + 50⟩, ⟨centerX + 50, centerY + 50⟩]

/-- `calculatePosition`: the center for a layer.  The source's non-null
assertions `position.x!`/`position.y!` are rendered with `Option.getD 0`; the
absolute branch is only exercised with both coordinates present. -/
def calculatePosition (calculatedShapes : ShapeMap) (layer : SemanticLayer)
    (canvasWidth canvasHeight : ℚ) : Except String Point :=
  let position := layer.position
  if position.type = PositionType.absolute then
    Except.ok ⟨position.x.getD 0, position.y.getD 0⟩
  else if position.type = PositionType.centered then
    Except.ok ⟨canvasWidth / 2, canvasHeight / 2⟩
  else
    match refId layer with
    | some rid =>
      match mapGet calculatedShapes rid with
      | none => Except.error ("Reference shape \"" ++ rid ++ "\" not found")
      | some reference =>
        let offset := position.offset.getD 0
        match position.alignment with
        | some Alignment.tip_touches_left =>
          Except.ok ⟨reference.bounds.left + offset, reference.centerY⟩
        | some Alignment.tip_touches_right =>
          Except.ok ⟨reference.bounds.right + offset, reference.centerY⟩
        | some Alignment.tip_touches_top =>
          Except.ok ⟨reference.centerX, reference.bounds.top + offset⟩
        | some Alignment.tip_touches_bottom =>
          Except.ok ⟨reference.centerX, reference.bounds.bottom + offset⟩
        | some Alignment.center_aligned =>
          Except.ok ⟨reference.centerX, reference.centerY⟩
        | some Alignment.adjacent_left =>
          Except.ok ⟨reference.bounds.left - offset, reference.centerY⟩
        | some Alignment.adjacent_right =>
          Except.ok ⟨reference.bounds.right + offset, reference.centerY⟩
        | _ =>
          Except.ok ⟨reference.centerX, reference.centerY⟩
    | none => Except.ok ⟨canvasWidth / 2, canvasHeight / 2⟩

/-- `calculateBounds`: the axis-aligned bounding box for a shape at a center. -/
def calculateBounds (sqrt3 : ℚ) (shape : ShapeDefinition) (centerX centerY : ℚ) :
    Bounds :=
  match shape with
  | ShapeDefinition.circle radius =>
    { left := centerX - radius, right := centerX + radius
      top := centerY - radius, bottom := centerY + radius }
  | ShapeDefinition.rectangle width height _ =>
    { left := centerX - width / 2, right := centerX + width / 2
      top := centerY - height / 2, bottom := centerY + height / 2 }
  | ShapeDefinition.triangle _ o size =>
    let height := size * sqrt3 / 2
    if o = Orientation.pointing_right then
      { left := centerX - size / 2, right := centerX + size / 2
        top := centerY - height / 2, bottom := centerY + height / 2 }
    else if o = Orientation.pointing_left then
      { left := centerX - size / 2, right := centerX + size / 2
        top := centerY - height / 2, bottom := centerY + height / 2 }
    else
      { left := centerX - size / 2, right := centerX + size / 2
        top := centerY - size / 2, bottom := centerY + size / 2 }
  | ShapeDefinition.diamond size =>
    let halfSize := size / 2
    { left := centerX - halfSize, right := centerX + halfSize
      top := centerY - halfSize, bottom := centerY + halfSize }
  | _ =>
    { left := centerX - 50, right := centerX + 50
      top := centerY - 50, bottom := centerY + 50 }

/-- Modelled from the spec: the alignment table of §4.2 (Position Resolver),
with the documented fallback that an unrecognized or absent alignment behaves
like `center_aligned`.  Used only to compare the source's resolver against the
spec's words. -/
def specAlignmentCenter (alignment : Option Alignment) (reference : CalculatedShape)
    (offset : ℚ) : Point :=
  match alignment with
  | some Alignment.tip_touches_left => ⟨reference.bounds.left + offset, reference.centerY⟩
  | some Alignment.tip_touches_right => ⟨reference.bounds.right + offset, reference.centerY⟩
  | some Alignment.tip_touches_top => ⟨reference.centerX, reference.bounds.top + offset⟩
  | some Alignment.tip_touches_bottom => ⟨reference.centerX, reference.bounds.bottom + offset⟩
  | some Alignment.center_aligned => ⟨reference.centerX, reference.centerY⟩
  | some Alignment.adjacent_left => ⟨reference.bounds.left - offset, reference.centerY⟩
  | some Alignment.adjacent_right => ⟨reference.bounds.right + offset, reference.centerY⟩
  | _ => ⟨reference.centerX, reference.centerY⟩

/-- State of the dependency sort: the output list (`sorted` in the source) and
the processed-id set (`processed`, a JS `Set` modelled as a list of ids). -/
structure SortState where
  sorted : List SemanticLayer
  processed : List String
deriving DecidableEq

/-- `processLayer` inside `sortLayersByDependencies`, with explicit fuel
standing for the JS call stack: visiting a layer first visits its referent
(when present and unprocessed), then appends the layer and marks it processed.
`none` means the fuel ran out, i.e. the source's unbounded recursion would
have grown the call stack forever. -/
def processLayer (layers : List SemanticLayer) :
    Nat → SemanticLayer → SortState → Option SortState
  | 0, _, _ => none
  | fuel + 1, layer, st =>
    if layer.id ∈ st.processed then some st
    else
      match
        (match refId layer with
          | some rid =>
            match layerMapGet layers rid with
            | some ref =>
              if ref.id ∈ st.processed then some st
              else processLayer layers fuel ref st
            | none => some st
          | none => some st) with
      | none => none
      | some st' => some ⟨st'.sorted ++ [layer], layer.id :: st'.processed⟩

/-- The `for (const layer of layers) processLayer(layer)` loop. -/
def sortGo (layers : List SemanticLayer) (fuel : Nat) :
    List SemanticLayer → SortState → Option SortState
  | [], st => some st
  | l :: ls, st =>
    match processLayer layers fuel l st with
    | none => none
    | some st' => sortGo layers fuel ls st'

/-- `sortLayersByDependencies`, fuelled (see `processLayer`). -/
def sortLayersByDependencies (fuel : Nat) (layers : List SemanticLayer) :
    Option (List SemanticLayer) :=
  (sortGo layers fuel layers ⟨[], []⟩).map SortState.sorted

/-- The per-layer loop of `generateSemanticSvg`: resolve the center, compute
the bounds, store the record in the map, and emit the record.  The first
component is the emitted render-ready records (or the thrown error), the
second the state of the `calculatedShapes` map when the loop stops. -/
def runLayers (sqrt3 cw ch : ℚ) :
    List SemanticLayer → ShapeMap → List CalculatedShape →
      Except String (List CalculatedShape) × ShapeMap
  | [], m, acc => (Except.ok acc, m)
  | layer :: rest, m, acc =>
    match calculatePosition m layer cw ch with
    | Except.error e => (Except.error e, m)
    | Except.ok center =>
      let bounds := calculateBounds sqrt3 layer.shape center.x center.y
      let placed : CalculatedShape := ⟨layer.id, center.x, center.y, bounds⟩
      runLayers sqrt3 cw ch rest (mapSet m layer.id placed) (acc ++ [placed])

/-- `generateSemanticSvg`: clear the module-level map, sort the layers, then
resolve each layer in dependency order.  The prior content of the module-level
map is the `global` argument, discarded by the initial `clear()`.  The sort's
fuel is one more than the layer count: a terminating dependency chain visits
each layer at most once, so only a reference cycle exhausts it, in which case
the JS engine aborts with a stack-overflow `RangeError`. -/
def generateSemanticSvg (sqrt3 : ℚ) (global : ShapeMap) (spec : SemanticSvgSpec) :
    Except String (List CalculatedShape) × ShapeMap :=
  let cleared : ShapeMap := []
  match sortLayersByDependencies (spec.layers.length + 1) spec.layers with
  | none => (Except.error "Maximum call stack size exceeded", cleared)
  | some sortedLayers =>
    runLayers sqrt3 spec.canvasSize.width spec.canvasSize.height sortedLayers cleared []

/-- A rank function witnessing that the relative-reference graph (an edge from
each layer to the existing layer its position refers to) has no cycle: every
edge strictly decreases the rank. -/
def RankOk (layers : List SemanticLayer) (rank : String → Nat) : Prop :=
  ∀ L ∈ layers, ∀ rid, refId L = some rid → rid ∈ idsOf layers → rank rid < rank L.id

/-- Acyclicity of the relative-reference graph, expressed as the existence of
a topological numbering: each layer's rank is below the layer count and every
reference edge strictly decreases the rank.  For a finite graph (out-degree at
most one here) such a numbering exists exactly when there is no reference
cycle. -/
def Acyclic (layers : List SemanticLayer) : Prop :=
  ∃ rank : String → Nat,
    (∀ L ∈ layers, rank L.id < layers.length) ∧ RankOk layers rank

/-- Invariant of the sort state during `sortLayersByDependencies`. -/
structure SortInv (layers : List SemanticLayer) (st : SortState) : Prop where
  sub : ∀ L ∈ st.sorted, L ∈ layers
  nodupIds : (idsOf st.sorted).Nodup
  procIff : ∀ x, x ∈ st.processed ↔ x ∈ idsOf st.sorted
  ordered : ∀ pre L post, st.sorted = pre ++ L :: post → ∀ rid, refId L = some rid →
    rid ∈ idsOf layers → ∃ R, R ∈ pre ∧ R.id = rid

/-- The circle of the ISA ball-valve scenario: radius 30, canvas-centered. -/
def isaCircle : SemanticLayer :=
  { id := "center_circle", shape := ShapeDefinition.circle 30
    position := { type := PositionType.centered } }

/-- The left triangle of the ISA ball-valve scenario. -/
def isaLeft : SemanticLayer :=
  { id := "left"
    shape := ShapeDefinition.triangle TriangleType.equilateral Orientation.pointing_right 100
    position := { type := PositionType.relativePos, relativeTo := some "center_circle"
                  alignment := some Alignment.tip_touches_left } }

/-- The right triangle of the ISA ball-valve scenario. -/
def isaRight : SemanticLayer :=
  { id := "right"
    shape := ShapeDefinition.triangle TriangleType.equilateral Orientation.pointing_left 100
    position := { type := PositionType.relativePos, relativeTo := some "center_circle"
                  alignment := some Alignment.tip_touches_right } }

/-- The ISA ball-valve specification on a 400×400 canvas, with the given
declaration order of the three layers. -/
def isaSpec (layers : List SemanticLayer) : SemanticSvgSpec :=
  { name := "ball_valve", description := "ISA ball valve"
    canvasSize := ⟨400, 400⟩, layers := layers }

/-- Layer `A`, positioned relative to `B` (half of a 2-cycle). -/
def cycA : SemanticLayer :=
  { id := "A", shape := ShapeDefinition.circle 10
    position := { type := PositionType.relativePos, relativeTo := some "B"
                  alignment := some Alignment.center_aligned } }

/-- Layer `B`, positioned relative to `A` (the other half of the 2-cycle). -/
def cycB : SemanticLayer :=
  { id := "B", shape := ShapeDefinition.circle 10
    position := { type := PositionType.relativePos, relativeTo := some "A"
                  alignment := some Alignment.center_aligned } }

/-- A specification whose two layers reference each other. -/
def cycSpec : SemanticSvgSpec :=
  { name := "cyc", description := "a 2-cycle", canvasSize := ⟨400, 400⟩
    layers := [cycA, cycB] }

/-- A layer whose relative position names an identifier no layer has. -/
def ghostLayer : SemanticLayer :=
  { id := "G", shape := ShapeDefinition.circle 5
    position := { type := PositionType.relativePos, relativeTo := some "ghost"
                  alignment := some Alignment.center_aligned } }

/-- Declaration order used by the C1 witness: a referencer before its
referent, so the sort must reorder. -/
def c1layers : List SemanticLayer := [isaLeft, isaCircle, isaRight]

/-- A specification with both a dangling reference and a reference cycle. -/
def c5cexSpec : SemanticSvgSpec :=
  { name := "bad", description := "dangling reference plus cycle"
    canvasSize := ⟨100, 100⟩, layers := [ghostLayer, cycA, cycB] }

/-- An acyclic specification with a dangling reference. -/
def c5wSpec : SemanticSvgSpec :=
  { name := "dangling", description := "dangling reference only"
    canvasSize := ⟨400, 400⟩, layers := [isaCircle, ghostLayer] }

/-- Referent placement used by the C2 witness. -/
def c2ref : CalculatedShape := ⟨"c", 200, 200, ⟨170, 230, 170, 230⟩⟩

/-- Placement mapping used by the C2 witness. -/
def c2map : ShapeMap := [("c", c2ref)]

/-- Layer used by the C2 witness: `tip_touches_left` of `"c"`, offset absent. -/
def c2layer : SemanticLayer :=
  { id := "t", shape := ShapeDefinition.circle 5
    position := { type := PositionType.relativePos, relativeTo := some "c"
                  alignment := some Alignment.tip_touches_left } }

/-- Referent placement used by the C6 counterexample: a circle of radius 30
resolved at (200, 200). -/
def cexRef : CalculatedShape := ⟨"c", 200, 200, ⟨170, 230, 170, 230⟩⟩

/-- Placement mapping used by the C6 counterexample. -/
def cexMap : ShapeMap := [("c", cexRef)]

/-- Layer positioned `edge_touches_left` of `"c"`. -/
def cexEdgeLayer : SemanticLayer :=
  { id := "e", shape := ShapeDefinition.circle 5
    position := { type := PositionType.relativePos, relativeTo := some "c"
                  alignment := some Alignment.edge_touches_left } }

/-- The same layer positioned `tip_touches_left` of `"c"`. -/
def cexTipLayer : SemanticLayer :=
  { id := "e", shape := ShapeDefinition.circle 5
    position := { type := PositionType.relativePos, relativeTo := some "c"
                  alignment := some Alignment.tip_touches_left } }

/-- Layer used by the C10 witness: relative with no referent id. -/
def c10layer : SemanticLayer :=
  { id := "solo", shape := ShapeDefinition.diamond 40
    position := { type := PositionType.relativePos } }

/-- A `refId` result exposes the underlying position fields. -/
theorem refId_eq_some {layer : SemanticLayer} {rid : String}
    (h : refId layer = some rid) :
    layer.position.type = PositionType.relativePos ∧
      layer.position.relativeTo = some rid ∧ rid ≠ "" := by
  unfold refId at h
  rcases htype : layer.position.type <;> rw [htype] at h
  · simp at h
  · rcases hrel : layer.position.relativeTo with _ | s <;> rw [hrel] at h
    · simp at h
    · by_cases hs : s = ""
      · simp [hs] at h
      · simp [hs] at h
        subst h
        exact ⟨rfl, rfl, hs⟩
  · simp at h

/-- When the guard `position.type === 'relative' && position.relativeTo` fails
for a relative position, `refId` is `none`. -/
theorem refId_eq_none {layer : SemanticLayer}
    (h : layer.position.relativeTo = none ∨ layer.position.relativeTo = some "") :
    refId layer = none := by
  unfold refId
  rcases h with h | h <;> rw [h] <;> rcases layer.position.type <;> simp

/-- Shared evaluation lemma: a relative position with a present referent
resolves to the table center. -/
theorem calcPos_relative (m : ShapeMap) (layer : SemanticLayer) (cw ch : ℚ)
    {rid : String} {reference : CalculatedShape}
    (h : refId layer = some rid) (href : mapGet m rid = some reference) :
    calculatePosition m layer cw ch =
      Except.ok (specAlignmentCenter layer.position.alignment reference
        (layer.position.offset.getD 0)) := by
  obtain ⟨htype, _, _⟩ := refId_eq_some h
  rcases halign : layer.position.alignment with _ | a
  · simp [calculatePosition, specAlignmentCenter, htype, h, href, halign]
  · cases a <;> simp [calculatePosition, specAlignmentCenter, htype, h, href, halign]

/-- Shared evaluation lemma: a non-relative (or referent-less) position always
resolves without error. -/
theorem calcPos_ok_of_refId_none (m : ShapeMap) (layer : SemanticLayer) (cw ch : ℚ)
    (h : refId layer = none) :
    ∃ p, calculatePosition m layer cw ch = Except.ok p := by
  rcases htype : layer.position.type
  · exact ⟨⟨layer.position.x.getD 0, layer.position.y.getD 0⟩,
      by simp [calculatePosition, htype]⟩
  · exact ⟨⟨cw / 2, ch / 2⟩, by simp [calculatePosition, htype, h]⟩
  · exact ⟨⟨cw / 2, ch / 2⟩, by simp [calculatePosition, htype]⟩

/-- Shared evaluation lemma: a relative position whose referent is absent from
the mapping throws the reference-not-found error naming the referent. -/
theorem calcPos_relative_missing (m : ShapeMap) (layer : SemanticLayer) (cw ch : ℚ)
    {rid : String} (h : refId layer = some rid) (hnone : mapGet m rid = none) :
    calculatePosition m layer cw ch =
      Except.error ("Reference shape \"" ++ rid ++ "\" not found") := by
  obtain ⟨htype, _, _⟩ := refId_eq_some h
  simp [calculatePosition, htype, h, hnone]

/-- Claim C2: for every relative Position whose referent placement is present
in the mapping, `calculatePosition` returns exactly the center given by the
spec's alignment table (`specAlignmentCenter`), with the offset defaulting to 0
when absent and an unrecognized or absent alignment resolving like
`center_aligned`. -/
theorem c2_alignment_table (m : ShapeMap) (layer : SemanticLayer) (cw ch : ℚ)
    (rid : String) (reference : CalculatedShape)
    (h : refId layer = some rid) (href : mapGet m rid = some reference) :
    calculatePosition m layer cw ch =
      Except.ok (specAlignmentCenter layer.position.alignment reference
        (layer.position.offset.getD 0)) :=
  calcPos_relative m layer cw ch h href

/-- Witness for C2 at a concrete layer and mapping. -/
theorem c2_alignment_table_witness :
    calculatePosition c2map c2layer 400 400 =
      Except.ok (specAlignmentCenter c2layer.position.alignment c2ref
        (c2layer.position.offset.getD 0)) :=
  c2_alignment_table c2map c2layer 400 400 "c" c2ref rfl rfl

/-- Counterexample to claim C6 as stated: with the referent's placement at
center (200, 200) and bounds.left = 170, `edge_touches_left` resolves to the
referent's center (the default fallback) while `tip_touches_left` resolves to
(170, 200), so the two alignments do not yield the same center. -/
theorem c6_counterexample :
    calculatePosition cexMap cexEdgeLayer 400 400 = Except.ok ⟨200, 200⟩ ∧
    calculatePosition cexMap cexTipLayer 400 400 = Except.ok ⟨170, 200⟩ ∧
    calculatePosition cexMap cexEdgeLayer 400 400 ≠
      calculatePosition cexMap cexTipLayer 400 400 := by
  have h1 : calculatePosition cexMap cexEdgeLayer 400 400 = Except.ok ⟨200, 200⟩ := by
    simp [calculatePosition, cexEdgeLayer, cexMap, cexRef, refId, mapGet]
  have h2 : calculatePosition cexMap cexTipLayer 400 400 = Except.ok ⟨170, 200⟩ := by
    simp [calculatePosition, cexTipLayer, cexMap, cexRef, refId, mapGet]
  refine ⟨h1, h2, ?_⟩
  rw [h1, h2]
  intro hcon
  rw [Except.ok.injEq, Point.mk.injEq] at hcon
  exact absurd hcon.1 (by norm_num)

/-- Claim C6 (amended): for every referent placement, offset, and direction D,
resolving a relative Position with alignment `edge_touches_D` yields the same
center as `center_aligned` (the documented fallback for alignments the
resolver does not recognize), namely the referent's center — not the
`tip_touches_D` center. -/
theorem c6_edge_touches_resolves_as_center (m : ShapeMap) (layer : SemanticLayer)
    (cw ch : ℚ) (rid : String) (reference : CalculatedShape)
    (h : refId layer = some rid) (href : mapGet m rid = some reference)
    (halign : layer.position.alignment = some Alignment.edge_touches_left ∨
      layer.position.alignment = some Alignment.edge_touches_right ∨
      layer.position.alignment = some Alignment.edge_touches_top ∨
      layer.position.alignment = some Alignment.edge_touches_bottom) :
    calculatePosition m layer cw ch =
      Except.ok ⟨reference.centerX, reference.centerY⟩ := by
  obtain ⟨htype, _, _⟩ := refId_eq_some h
  rcases halign with h4 | h4 | h4 | h4 <;> simp [calculatePosition, htype, h, href, h4]

/-- Witness for the amended C6 at a concrete layer and mapping. -/
theorem c6_edge_touches_resolves_as_center_witness :
    calculatePosition cexMap cexEdgeLayer 400 400 =
      Except.ok ⟨cexRef.centerX, cexRef.centerY⟩ :=
  c6_edge_touches_resolves_as_center cexMap cexEdgeLayer 400 400 "c" cexRef rfl rfl
    (Or.inl rfl)

/-- Claim C7: for every equilateral triangle of side s centered at (cx, cy),
with h = s·√3/2, `calculateTriangle` returns the four orientation-dependent
vertex lists stated in the spec (pointing_right, pointing_left, pointing_up,
pointing_down). -/
theorem c7_triangle_vertices (sqrt3 s cx cy : ℚ) :
    calculateTriangle sqrt3
        (ShapeDefinition.triangle TriangleType.equilateral Orientation.pointing_right s)
        cx cy =
      [⟨cx - s / 2, cy - s * sqrt3 / 2 / 2⟩, ⟨cx - s / 2, cy + s * sqrt3 / 2 / 2⟩,
        ⟨cx + s / 2, cy⟩] ∧
    calculateTriangle sqrt3
        (ShapeDefinition.triangle TriangleType.equilateral Orientation.pointing_left s)
        cx cy =
      [⟨cx + s / 2, cy - s * sqrt3 / 2 / 2⟩, ⟨cx + s / 2, cy + s * sqrt3 / 2 / 2⟩,
        ⟨cx - s / 2, cy⟩] ∧
    calculateTriangle sqrt3
        (ShapeDefinition.triangle TriangleType.equilateral Orientation.pointing_up s)
        cx cy =
      [⟨cx, cy - s * sqrt3 / 2 / 2⟩, ⟨cx - s / 2, cy + s * sqrt3 / 2 / 2⟩,
        ⟨cx + s / 2, cy + s * sqrt3 / 2 / 2⟩] ∧
    calculateTriangle sqrt3
        (ShapeDefinition.triangle TriangleType.equilateral Orientation.pointing_down s)
        cx cy =
      [⟨cx, cy + s * sqrt3 / 2 / 2⟩, ⟨cx - s / 2, cy - s * sqrt3 / 2 / 2⟩,
        ⟨cx + s / 2, cy - s * sqrt3 / 2 / 2⟩] :=
  ⟨rfl, rfl, rfl, rfl⟩

/-- Claim C9: for every shape kind (including the fallback branches) and every
center, the bounding box computed by `calculateBounds` is symmetric about the
center. -/
theorem c9_bounds_symmetric (sqrt3 : ℚ) (shape : ShapeDefinition) (cx cy : ℚ) :
    (calculateBounds sqrt3 shape cx cy).left + (calculateBounds sqrt3 shape cx cy).right
        = 2 * cx ∧
    (calculateBounds sqrt3 shape cx cy).top + (calculateBounds sqrt3 shape cx cy).bottom
        = 2 * cy := by
  cases shape with
  | triangle tt o size =>
    rcases o <;> constructor <;> simp [calculateBounds] <;> ring
  | rectangle w hgt r => constructor <;> simp [calculateBounds] <;> ring
  | circle r => constructor <;> simp [calculateBounds] <;> ring
  | ellipse rx ry => constructor <;> simp [calculateBounds] <;> ring
  | line len ang => constructor <;> simp [calculateBounds] <;> ring
  | diamond size => constructor <;> simp [calculateBounds] <;> ring

/-- Claim C10: a Position of type relative with an absent or empty
`relativeTo` resolves to the canvas center without error, for every canvas
size and every placement mapping. -/
theorem c10_relative_without_referent (m : ShapeMap) (layer : SemanticLayer)
    (cw ch : ℚ) (htype : layer.position.type = PositionType.relativePos)
    (h : layer.position.relativeTo = none ∨ layer.position.relativeTo = some "") :
    calculatePosition m layer cw ch = Except.ok ⟨cw / 2, ch / 2⟩ := by
  have hnone := refId_eq_none h
  simp [calculatePosition, htype, hnone]

/-- Witness for C10 at a concrete layer, canvas and mapping. -/
theorem c10_relative_without_referent_witness :
    calculatePosition cexMap c10layer 400 300 = Except.ok ⟨400 / 2, 300 / 2⟩ :=
  c10_relative_without_referent cexMap c10layer 400 300 rfl (Or.inl rfl)

/-- A successful `layerMapGet` returns a layer of the list bearing the key. -/
theorem layerMapGet_mem {layers : List SemanticLayer} {k : String} {R : SemanticLayer}
    (h : layerMapGet layers k = some R) : R ∈ layers ∧ R.id = k := by
  induction layers with
  | nil => cases h
  | cons l ls ih =>
    unfold layerMapGet at h
    cases hg : layerMapGet ls k with
    | some r =>
      rw [hg] at h
      injection h with h
      subst h
      exact ⟨List.mem_cons_of_mem _ (ih hg).1, (ih hg).2⟩
    | none =>
      rw [hg] at h
      by_cases hl : l.id = k
      · rw [if_pos hl] at h
        injection h with h
        subst h
        exact ⟨List.mem_cons_self _ _, hl⟩
      · rw [if_neg hl] at h
        cases h

/-- A key present among the layer ids is found by `layerMapGet`. -/
theorem layerMapGet_mem_ids {layers : List SemanticLayer} {k : String}
    (h : k ∈ idsOf layers) : ∃ R, layerMapGet layers k = some R := by
  induction layers with
  | nil => simp [idsOf] at h
  | cons l ls ih =>
    unfold layerMapGet
    cases hg : layerMapGet ls k with
    | some r => exact ⟨r, rfl⟩
    | none =>
      have hk : k ∉ idsOf ls := by
        intro hmem
        obtain ⟨R, hR⟩ := ih hmem
        rw [hR] at hg
        cases hg
      have hl : l.id = k := by
        simp only [idsOf, List.map_cons, List.mem_cons] at h
        rcases h with h | h
        · exact h.symm
        · exact absurd h hk
      exact ⟨l, by rw [if_pos hl]⟩

/-- A failed `layerMapGet` means the key is not among the layer ids. -/
theorem not_mem_ids_of_layerMapGet_none {layers : List SemanticLayer} {k : String}
    (h : layerMapGet layers k = none) : k ∉ idsOf layers := by
  intro hmem
  obtain ⟨R, hR⟩ := layerMapGet_mem_ids hmem
  rw [h] at hR
  cases hR

/-- `keysOf` distributes over cons. -/
theorem keysOf_cons (k : String) (v : CalculatedShape) (m : ShapeMap) :
    keysOf ((k, v) :: m) = k :: keysOf m := rfl

/-- `keysOf` after `mapSet` appends the new key. -/
theorem keysOf_mapSet (m : ShapeMap) (k : String) (v : CalculatedShape) :
    keysOf (mapSet m k v) = keysOf m ++ [k] := by
  simp [keysOf, mapSet]

/-- A key present in the map is found by `mapGet`. -/
theorem mapGet_mem_keys {m : ShapeMap} {k : String}
    (h : k ∈ keysOf m) : ∃ v, mapGet m k = some v := by
  induction m with
  | nil => simp [keysOf] at h
  | cons p m ih =>
    obtain ⟨k', v⟩ := p
    unfold mapGet
    cases hg : mapGet m k with
    | some r => exact ⟨r, rfl⟩
    | none =>
      have hk : k ∉ keysOf m := by
        intro hmem
        obtain ⟨w, hw⟩ := ih hmem
        rw [hw] at hg
        cases hg
      have hl : k' = k := by
        rw [keysOf_cons] at h
        rcases List.mem_cons.1 h with h | h
        · exact h.symm
        · exact absurd h hk
      exact ⟨v, by rw [if_pos hl]⟩

/-- A successful `mapGet` means the key is in the map. -/
theorem mem_keys_of_mapGet_some {m : ShapeMap} {k : String} {v : CalculatedShape}
    (h : mapGet m k = some v) : k ∈ keysOf m := by
  induction m generalizing v with
  | nil => cases h
  | cons p m ih =>
    obtain ⟨k', w⟩ := p
    unfold mapGet at h
    rw [keysOf_cons]
    cases hg : mapGet m k with
    | some r =>
      rw [hg] at h
      exact List.mem_cons_of_mem _ (ih hg)
    | none =>
      rw [hg] at h
      by_cases hl : k' = k
      · exact hl ▸ List.mem_cons_self _ _
      · rw [if_neg hl] at h
        cases h

/-- A key absent from the map makes `mapGet` fail. -/
theorem mapGet_none_of_not_mem {m : ShapeMap} {k : String}
    (h : k ∉ keysOf m) : mapGet m k = none := by
  cases hg : mapGet m k with
  | none => rfl
  | some v => exact absurd (mem_keys_of_mapGet_some hg) h

/-- Two layers of a duplicate-free list with the same id are equal. -/
theorem eq_of_nodup_ids {layers : List SemanticLayer}
    (hnd : (idsOf layers).Nodup) {L L' : SemanticLayer}
    (h : L ∈ layers) (h' : L' ∈ layers) (heq : L.id = L'.id) : L = L' := by
  induction layers with
  | nil => cases h
  | cons a rest ih =>
    have hnd2 : (idsOf rest).Nodup ∧ a.id ∉ idsOf rest := by
      have := hnd
      simp only [idsOf, List.map_cons, List.nodup_cons] at this
      exact ⟨this.2, this.1⟩
    rcases List.mem_cons.1 h with rfl | hmem
    · rcases List.mem_cons.1 h' with rfl | hmem'
      · rfl
      · have hin : L'.id ∈ idsOf rest := List.mem_map_of_mem (fun l => l.id) hmem'
        rw [← heq] at hin
        exact absurd hin hnd2.2
    · rcases List.mem_cons.1 h' with rfl | hmem'
      · have hin : L.id ∈ idsOf rest := List.mem_map_of_mem (fun l => l.id) hmem
        rw [heq] at hin
        exact absurd hin hnd2.2
      · exact ih hnd2.1 hmem hmem'

/-- Splitting a list that ends in one extra element: the distinguished middle
element is either inside the prefix list or is the appended last element. -/
theorem concat_split {α : Type} {xs : List α} {a : α} {pre post : List α} {x : α}
    (h : xs ++ [a] = pre ++ x :: post) :
    (∃ post', xs = pre ++ x :: post' ∧ post = post' ++ [a]) ∨
      (pre = xs ∧ x = a ∧ post = []) := by
  rcases post.eq_nil_or_concat with rfl | ⟨post', b, rfl⟩
  · right
    have h2 := List.append_inj' h (by simp)
    have hax : a = x := by injection h2.2
    exact ⟨h2.1.symm, hax.symm, rfl⟩
  · left
    rw [List.concat_eq_append] at h
    have hassoc : pre ++ x :: (post' ++ [b]) = (pre ++ x :: post') ++ [b] := by simp
    rw [hassoc] at h
    have h2 := List.append_inj' h (by simp)
    refine ⟨post', h2.1, ?_⟩
    have hb : a = b := by injection h2.2
    rw [List.concat_eq_append, hb]

/-- In any layer list where `"A"` and `"B"` look up to the mutually-referring
layers `cycA` and `cycB`, `processLayer` exhausts any amount of fuel starting
from any state that has processed neither: the source's recursion never
terminates on a reference cycle. -/
theorem processLayer_cycle_none (layers : List SemanticLayer)
    (hmA : layerMapGet layers "B" = some cycB)
    (hmB : layerMapGet layers "A" = some cycA) :
    ∀ fuel (st : SortState), "A" ∉ st.processed → "B" ∉ st.processed →
      processLayer layers fuel cycA st = none ∧
        processLayer layers fuel cycB st = none := by
  intro fuel
  induction fuel with
  | zero => exact fun st _ _ => ⟨rfl, rfl⟩
  | succ n ih =>
    intro st hA hB
    have hrA : refId cycA = some "B" := rfl
    have hrB : refId cycB = some "A" := rfl
    have hidA : cycA.id = "A" := rfl
    have hidB : cycB.id = "B" := rfl
    constructor
    · simp only [processLayer, hidA, hidB, if_neg hA, if_neg hB, hrA, hmA,
        (ih st hA hB).2]
    · simp only [processLayer, hidA, hidB, if_neg hA, if_neg hB, hrB, hmB,
        (ih st hA hB).1]

/-- The empty sort state satisfies the invariant. -/
theorem sortInv_empty (layers : List SemanticLayer) : SortInv layers ⟨[], []⟩ := by
  constructor
  · intro L hL; cases hL
  · simp [idsOf]
  · intro x; simp [idsOf]
  · intro pre L post hsplit rid _ _
    rcases List.append_eq_nil.1 hsplit.symm with ⟨_, h2⟩
    exact absurd h2 (List.cons_ne_nil _ _)

/-- Appending a layer whose referent (if any, and existing among the layers)
is already in the output preserves the sort invariant. -/
theorem push_inv {layers : List SemanticLayer} {st1 : SortState} {L : SemanticLayer}
    (hL : L ∈ layers) (inv1 : SortInv layers st1)
    (hnotin : L.id ∉ st1.processed)
    (href : ∀ rid, refId L = some rid → rid ∈ idsOf layers →
      ∃ R, R ∈ st1.sorted ∧ R.id = rid) :
    SortInv layers ⟨st1.sorted ++ [L], L.id :: st1.processed⟩ := by
  constructor
  · intro X hX
    rcases List.mem_append.1 hX with hX | hX
    · exact inv1.sub X hX
    · rcases List.mem_singleton.1 hX with rfl
      exact hL
  · have hLid : L.id ∉ idsOf st1.sorted := fun hc => hnotin ((inv1.procIff L.id).2 hc)
    simp only [idsOf, List.map_append, List.map_cons, List.map_nil]
    rw [List.nodup_append]
    exact ⟨inv1.nodupIds, List.nodup_singleton _,
      fun x hx hy => hLid (List.mem_singleton.1 hy ▸ hx)⟩
  · intro x
    simp only [List.mem_cons, idsOf, List.map_append, List.map_cons, List.map_nil,
      List.mem_append, List.not_mem_nil, or_false]
    constructor
    · rintro (rfl | hx)
      · exact Or.inr rfl
      · exact Or.inl ((inv1.procIff x).1 hx)
    · rintro (hx | rfl)
      · exact Or.inr ((inv1.procIff x).2 hx)
      · exact Or.inl rfl
  · intro pre Lx post hsplit rid hrid hin
    rcases concat_split hsplit with ⟨post', hxs, _⟩ | ⟨hpre, hx, _⟩
    · exact inv1.ordered pre Lx post' hxs rid hrid hin
    · subst hpre
      exact href rid (hx ▸ hrid) hin

/-- Soundness of one `processLayer` call: starting from an invariant state it
extends the output, keeps the invariant, marks the visited layer processed,
and only processes ids of rank at most the visited layer's rank. -/
theorem processLayer_sound {layers : List SemanticLayer} {rank : String → Nat}
    (hrank : RankOk layers rank) :
    ∀ fuel (L : SemanticLayer) (st st' : SortState), L ∈ layers → SortInv layers st →
      processLayer layers fuel L st = some st' →
      SortInv layers st' ∧ (∃ ext, st'.sorted = st.sorted ++ ext) ∧
        (∀ x ∈ st.processed, x ∈ st'.processed) ∧ L.id ∈ st'.processed ∧
        (∀ x ∈ st'.processed, x ∈ st.processed ∨ rank x ≤ rank L.id) := by
  intro fuel
  induction fuel with
  | zero => intro L st st' _ _ h; cases h
  | succ n ih =>
    intro L st st' hL hinv h
    simp only [processLayer] at h
    by_cases hcont : L.id ∈ st.processed
    · rw [if_pos hcont] at h
      injection h with h
      subst h
      exact ⟨hinv, ⟨[], by simp⟩, fun x hx => hx, hcont, fun x hx => Or.inl hx⟩
    · rw [if_neg hcont] at h
      rcases hrid : refId L with _ | rid
      · simp only [hrid] at h
        injection h with h
        subst h
        refine ⟨push_inv hL hinv hcont ?_, ⟨[L], rfl⟩,
          fun x hx => List.mem_cons_of_mem _ hx, List.mem_cons_self _ _, ?_⟩
        · intro rid' h' _
          rw [hrid] at h'
          cases h'
        · intro x hx
          rcases List.mem_cons.1 hx with rfl | hx
          · exact Or.inr le_rfl
          · exact Or.inl hx
      · simp only [hrid] at h
        rcases hmg : layerMapGet layers rid with _ | R
        · simp only [hmg] at h
          injection h with h
          subst h
          have hnin := not_mem_ids_of_layerMapGet_none hmg
          refine ⟨push_inv hL hinv hcont ?_, ⟨[L], rfl⟩,
            fun x hx => List.mem_cons_of_mem _ hx, List.mem_cons_self _ _, ?_⟩
          · intro rid' h' hin'
            rw [hrid] at h'
            injection h' with h'
            subst h'
            exact absurd hin' hnin
          · intro x hx
            rcases List.mem_cons.1 hx with rfl | hx
            · exact Or.inr le_rfl
            · exact Or.inl hx
        · simp only [hmg] at h
          obtain ⟨hRmem, hRid⟩ := layerMapGet_mem hmg
          by_cases hcR : R.id ∈ st.processed
          · rw [if_pos hcR] at h
            injection h with h
            subst h
            refine ⟨push_inv hL hinv hcont ?_, ⟨[L], rfl⟩,
              fun x hx => List.mem_cons_of_mem _ hx, List.mem_cons_self _ _, ?_⟩
            · intro rid' h' hin'
              rw [hrid] at h'
              injection h' with h'
              subst h'
              have hmem2 : R.id ∈ idsOf st.sorted := (hinv.procIff _).1 hcR
              obtain ⟨R', hR', hR'id⟩ := List.mem_map.1 hmem2
              exact ⟨R', hR', hRid ▸ hR'id⟩
            · intro x hx
              rcases List.mem_cons.1 hx with rfl | hx
              · exact Or.inr le_rfl
              · exact Or.inl hx
          · rw [if_neg hcR] at h
            rcases hrec : processLayer layers n R st with _ | st1
            · rw [hrec] at h; cases h
            · rw [hrec] at h
              injection h with h
              subst h
              obtain ⟨inv1, ⟨ext1, hext1⟩, mono1, hRin, rank1⟩ :=
                ih R st st1 hRmem hinv hrec
              have hin : rid ∈ idsOf layers :=
                hRid ▸ List.mem_map_of_mem (fun l => l.id) hRmem
              have hlt : rank R.id < rank L.id := by
                rw [hRid]
                exact hrank L hL rid hrid hin
              have hLnotin : L.id ∉ st1.processed := by
                intro hc
                rcases rank1 L.id hc with hc' | hc'
                · exact hcont hc'
                · exact absurd hc' (not_le.2 hlt)
              refine ⟨push_inv hL inv1 hLnotin ?_,
                ⟨ext1 ++ [L], by rw [hext1, List.append_assoc]⟩,
                fun x hx => List.mem_cons_of_mem _ (mono1 x hx),
                List.mem_cons_self _ _, ?_⟩
              · intro rid' h' hin'
                rw [hrid] at h'
                injection h' with h'
                subst h'
                have hmem2 : R.id ∈ idsOf st1.sorted := (inv1.procIff _).1 hRin
                obtain ⟨R', hR', hR'id⟩ := List.mem_map.1 hmem2
                exact ⟨R', hR', hRid ▸ hR'id⟩
              · intro x hx
                rcases List.mem_cons.1 hx with rfl | hx
                · exact Or.inr le_rfl
                · rcases rank1 x hx with hx' | hx'
                  · exact Or.inl hx'
                  · exact Or.inr (le_of_lt (lt_of_le_of_lt hx' hlt))

/-- Soundness of the sort loop: it preserves the invariant, only grows the
output, and marks every visited layer processed. -/
theorem sortGo_sound {layers : List SemanticLayer} {rank : String → Nat}
    (hrank : RankOk layers rank) (fuel : Nat) :
    ∀ (rest : List SemanticLayer) (st st' : SortState), (∀ L ∈ rest, L ∈ layers) →
      SortInv layers st → sortGo layers fuel rest st = some st' →
      SortInv layers st' ∧ (∀ x ∈ st.processed, x ∈ st'.processed) ∧
        (∀ L ∈ rest, L.id ∈ st'.processed) ∧ ∃ ext, st'.sorted = st.sorted ++ ext := by
  intro rest
  induction rest with
  | nil =>
    intro st st' _ hinv h
    simp only [sortGo] at h
    injection h with h
    subst h
    exact ⟨hinv, fun x hx => hx, fun L hL => absurd hL (List.not_mem_nil L), ⟨[], by simp⟩⟩
  | cons L rest ih =>
    intro st st' hsub hinv h
    simp only [sortGo] at h
    rcases hp : processLayer layers fuel L st with _ | st1
    · rw [hp] at h; cases h
    · rw [hp] at h
      obtain ⟨inv1, ⟨ext1, hext1⟩, mono1, hLin, _⟩ :=
        processLayer_sound hrank fuel L st st1 (hsub L (List.mem_cons_self _ _)) hinv hp
      obtain ⟨inv2, mono2, hall2, ⟨ext2, hext2⟩⟩ :=
        ih st1 st' (fun X hX => hsub X (List.mem_cons_of_mem _ hX)) inv1 h
      refine ⟨inv2, fun x hx => mono2 x (mono1 x hx), ?_,
        ⟨ext1 ++ ext2, by rw [hext2, hext1, List.append_assoc]⟩⟩
      intro X hX
      rcases List.mem_cons.1 hX with rfl | hX
      · exact mono2 X.id hLin
      · exact hall2 X hX

/-- With enough fuel (more than the layer's rank), `processLayer` succeeds. -/
theorem processLayer_success {layers : List SemanticLayer} {rank : String → Nat}
    (hrank : RankOk layers rank) :
    ∀ fuel (L : SemanticLayer) (st : SortState), L ∈ layers → rank L.id < fuel →
      (processLayer layers fuel L st).isSome = true := by
  intro fuel
  induction fuel with
  | zero => intro L st _ h; exact absurd h (Nat.not_lt_zero _)
  | succ n ih =>
    intro L st hL hfl
    by_cases hcont : L.id ∈ st.processed
    · simp only [processLayer, if_pos hcont, Option.isSome_some]
    · rcases hrid : refId L with _ | rid
      · simp only [processLayer, if_neg hcont, hrid, Option.isSome_some]
      · rcases hmg : layerMapGet layers rid with _ | R
        · simp only [processLayer, if_neg hcont, hrid, hmg, Option.isSome_some]
        · by_cases hcR : R.id ∈ st.processed
          · simp only [processLayer, if_neg hcont, hrid, hmg, if_pos hcR,
              Option.isSome_some]
          · obtain ⟨hRmem, hRid⟩ := layerMapGet_mem hmg
            have hin : rid ∈ idsOf layers :=
              hRid ▸ List.mem_map_of_mem (fun l => l.id) hRmem
            have hlt : rank R.id < n := by
              rw [hRid]
              exact lt_of_lt_of_le (hrank L hL rid hrid hin) (Nat.lt_succ_iff.1 hfl)
            have h1 := ih R st hRmem hlt
            obtain ⟨st1, hst1⟩ := Option.isSome_iff_exists.1 h1
            simp only [processLayer, if_neg hcont, hrid, hmg, if_neg hcR, hst1,
              Option.isSome_some]

/-- With enough fuel, the whole sort loop succeeds. -/
theorem sortGo_success {layers : List SemanticLayer} {rank : String → Nat}
    (hrank : RankOk layers rank) (fuel : Nat) :
    ∀ (rest : List SemanticLayer) (st : SortState), (∀ L ∈ rest, L ∈ layers) →
      (∀ L ∈ rest, rank L.id < fuel) →
      ∃ st', sortGo layers fuel rest st = some st' := by
  intro rest
  induction rest with
  | nil => intro st _ _; exact ⟨st, rfl⟩
  | cons L rest ih =>
    intro st hsub hflt
    have h1 := processLayer_success hrank fuel L st (hsub L (List.mem_cons_self _ _))
      (hflt L (List.mem_cons_self _ _))
    obtain ⟨st1, hst1⟩ := Option.isSome_iff_exists.1 h1
    obtain ⟨st', hst'⟩ := ih st1 (fun X hX => hsub X (List.mem_cons_of_mem _ hX))
      (fun X hX => hflt X (List.mem_cons_of_mem _ hX))
    refine ⟨st', ?_⟩
    simp only [sortGo, hst1]
    exact hst'

/-- Without relative positions the sort loop appends the layers verbatim. -/
theorem sortGo_norel {layers : List SemanticLayer} (fuel : Nat) :
    ∀ (rest : List SemanticLayer) (st : SortState),
      (∀ L ∈ rest, refId L = none) → (∀ L ∈ rest, L.id ∉ st.processed) →
      (idsOf rest).Nodup →
      ∃ p, sortGo layers (fuel + 1) rest st = some ⟨st.sorted ++ rest, p⟩ := by
  intro rest
  induction rest with
  | nil => intro st _ _ _; exact ⟨st.processed, by simp [sortGo]⟩
  | cons L rest ih =>
    intro st hnorel hnp hnd
    have hcont : L.id ∉ st.processed := hnp L (List.mem_cons_self _ _)
    have hstep : processLayer layers (fuel + 1) L st =
        some ⟨st.sorted ++ [L], L.id :: st.processed⟩ := by
      simp only [processLayer, if_neg hcont, hnorel L (List.mem_cons_self _ _)]
    have hnd2 : (idsOf rest).Nodup := by
      simp only [idsOf, List.map_cons, List.nodup_cons] at hnd
      exact hnd.2
    have hLnotin : L.id ∉ idsOf rest := by
      simp only [idsOf, List.map_cons, List.nodup_cons] at hnd
      exact hnd.1
    obtain ⟨p, hp⟩ := ih ⟨st.sorted ++ [L], L.id :: st.processed⟩
      (fun X hX => hnorel X (List.mem_cons_of_mem _ hX))
      (fun X hX => by
        intro hc
        rcases List.mem_cons.1 hc with hc | hc
        · exact hLnotin (hc ▸ List.mem_map_of_mem (fun l => l.id) hX)
        · exact hnp X (List.mem_cons_of_mem _ hX) hc)
      hnd2
    refine ⟨p, ?_⟩
    simp only [sortGo, hstep]
    rw [hp]
    simp

/-- Claim C4 evidence: on the 2-cycle specification the dependency sort never
terminates, whatever the fuel (the source recursion exhausts the call stack),
and the generator consequently aborts with the JS stack-overflow error rather
than a `CyclicReferenceError`. -/
theorem c4_cycle_exhausts_stack :
    (∀ fuel, sortLayersByDependencies fuel [cycA, cycB] = none) ∧
    (generateSemanticSvg 1 [] cycSpec).1 =
      Except.error "Maximum call stack size exceeded" := by
  have key : ∀ fuel, sortLayersByDependencies fuel [cycA, cycB] = none := by
    intro fuel
    have h := (processLayer_cycle_none [cycA, cycB] rfl rfl fuel ⟨[], []⟩
      (by simp) (by simp)).1
    simp only [sortLayersByDependencies, sortGo, h, Option.map_none']
  refine ⟨key, ?_⟩
  have h3 := key 3
  simp [generateSemanticSvg, cycSpec, h3]

/-- Claim C1: for a specification's declared layer sequence with unique ids
(§3 invariant), an acyclic reference graph, and every relative referent
naming an existing layer, the Dependency Orderer succeeds and returns a
permutation of the layers (so every layer appears exactly once) in which every
relative referent appears strictly before its referencer; and when no layer
has a relative position the output equals declaration order. -/
theorem c1_dependency_orderer (layers : List SemanticLayer)
    (hnd : (idsOf layers).Nodup) (hac : Acyclic layers)
    (hex : ∀ L ∈ layers, ∀ rid, refId L = some rid → rid ∈ idsOf layers) :
    ∃ out, sortLayersByDependencies (layers.length + 1) layers = some out ∧
      out.Perm layers ∧
      (∀ pre L post, out = pre ++ L :: post → ∀ rid, refId L = some rid →
        ∃ R, R ∈ pre ∧ R.id = rid) ∧
      ((∀ L ∈ layers, refId L = none) → out = layers) := by
  obtain ⟨rank, hbound, hrank⟩ := hac
  obtain ⟨st', hrun⟩ := sortGo_success hrank (layers.length + 1) layers ⟨[], []⟩
    (fun L hL => hL) (fun L hL => Nat.lt_succ_of_lt (hbound L hL))
  obtain ⟨hinv, _, hcomplete, _⟩ :=
    sortGo_sound hrank (layers.length + 1) layers ⟨[], []⟩ st'
      (fun L hL => hL) (sortInv_empty layers) hrun
  have hsubset : ∀ L ∈ layers, L ∈ st'.sorted := by
    intro L hL
    have h1 : L.id ∈ idsOf st'.sorted := (hinv.procIff _).1 (hcomplete L hL)
    obtain ⟨L', hL', hid⟩ := List.mem_map.1 h1
    have h2 : L' = L := eq_of_nodup_ids hnd (hinv.sub L' hL') hL hid
    exact h2 ▸ hL'
  refine ⟨st'.sorted, by simp [sortLayersByDependencies, hrun], ?_, ?_, ?_⟩
  · refine (List.perm_ext_iff_of_nodup (hinv.nodupIds.of_map _) (hnd.of_map _)).2 ?_
    intro a
    exact ⟨fun ha => hinv.sub a ha, fun ha => hsubset a ha⟩
  · intro pre L post hsplit rid hrid
    have hL : L ∈ st'.sorted := by
      rw [hsplit]
      exact List.mem_append.2 (Or.inr (List.mem_cons_self _ _))
    exact hinv.ordered pre L post hsplit rid hrid (hex L (hinv.sub L hL) rid hrid)
  · intro hnorel
    obtain ⟨p, hp⟩ := sortGo_norel layers.length layers ⟨[], []⟩ hnorel
      (fun L _ => List.not_mem_nil _) hnd
    rw [hrun] at hp
    injection hp with hp
    rw [hp]
    simp

/-- Witness for C1: the ISA layers declared referencer-first. -/
theorem c1_dependency_orderer_witness :
    ∃ out, sortLayersByDependencies (c1layers.length + 1) c1layers = some out ∧
      out.Perm c1layers ∧
      (∀ pre L post, out = pre ++ L :: post → ∀ rid, refId L = some rid →
        ∃ R, R ∈ pre ∧ R.id = rid) ∧
      ((∀ L ∈ c1layers, refId L = none) → out = c1layers) := by
  refine c1_dependency_orderer c1layers (by decide) ?_ ?_
  · refine ⟨fun s => if s = "center_circle" then 0 else 1, by decide, ?_⟩
    intro L hL rid hrid hin
    fin_cases hL
    · have h0 : refId isaLeft = some "center_circle" := rfl
      rw [h0] at hrid
      injection hrid with hrid
      subst hrid
      decide
    · have h0 : refId isaCircle = none := rfl
      rw [h0] at hrid
      cases hrid
    · have h0 : refId isaRight = some "center_circle" := rfl
      rw [h0] at hrid
      injection hrid with hrid
      subst hrid
      decide
  · intro L hL rid hrid
    fin_cases hL
    · have h0 : refId isaLeft = some "center_circle" := rfl
      rw [h0] at hrid
      injection hrid with hrid
      subst hrid
      decide
    · have h0 : refId isaCircle = none := rfl
      rw [h0] at hrid
      cases hrid
    · have h0 : refId isaRight = some "center_circle" := rfl
      rw [h0] at hrid
      injection hrid with hrid
      subst hrid
      decide

/-- A list permuting a two-element list is one of its two arrangements. -/
theorem perm_two_cases {α : Type} {xs : List α} {u v : α} (h : xs.Perm [u, v]) :
    xs = [u, v] ∨ xs = [v, u] := by
  have hlen := h.length_eq
  rcases xs with _ | ⟨x, _ | ⟨y, _ | ⟨z, tl⟩⟩⟩ <;> simp at hlen
  have hx : x ∈ [u, v] := h.mem_iff.1 (by simp)
  rcases List.mem_cons.1 hx with rfl | hx
  · left
    have h2 := (List.perm_cons x).1 h
    rw [List.perm_singleton.1 h2]
  · rcases List.mem_cons.1 hx with rfl | hx
    · right
      have h1 : ([x, y] : List α).Perm [x, u] := h.trans (List.Perm.swap x u [])
      have h2 := (List.perm_cons x).1 h1
      rw [List.perm_singleton.1 h2]
    · cases hx

/-- A list permuting a three-element list is one of its six arrangements. -/
theorem perm_three_cases {α : Type} {xs : List α} {a b c : α} (h : xs.Perm [a, b, c]) :
    xs = [a, b, c] ∨ xs = [a, c, b] ∨ xs = [b, a, c] ∨ xs = [b, c, a] ∨
      xs = [c, a, b] ∨ xs = [c, b, a] := by
  have hlen := h.length_eq
  rcases xs with _ | ⟨x, _ | ⟨y, _ | ⟨z, _ | ⟨w, tl⟩⟩⟩⟩ <;> simp at hlen
  have hx : x ∈ [a, b, c] := h.mem_iff.1 (by simp)
  rcases List.mem_cons.1 hx with rfl | hx
  · have h2 := (List.perm_cons x).1 h
    rcases perm_two_cases h2 with h3 | h3 <;> rw [h3]
    · exact Or.inl rfl
    · exact Or.inr (Or.inl rfl)
  · rcases List.mem_cons.1 hx with rfl | hx
    · have h1 : ([x, y, z] : List α).Perm (x :: a :: [c]) :=
        h.trans (List.Perm.swap x a [c])
      have h2 := (List.perm_cons x).1 h1
      rcases perm_two_cases h2 with h3 | h3 <;> rw [h3]
      · exact Or.inr (Or.inr (Or.inl rfl))
      · exact Or.inr (Or.inr (Or.inr (Or.inl rfl)))
    · rcases List.mem_cons.1 hx with rfl | hx
      · have hswap : ([a, b, x] : List α).Perm (x :: a :: [b]) :=
          (List.Perm.cons a (List.Perm.swap x b [])).trans (List.Perm.swap x a [b])
        have h1 := h.trans hswap
        have h2 := (List.perm_cons x).1 h1
        rcases perm_two_cases h2 with h3 | h3 <;> rw [h3]
        · exact Or.inr (Or.inr (Or.inr (Or.inr (Or.inl rfl))))
        · exact Or.inr (Or.inr (Or.inr (Or.inr (Or.inr rfl))))
      · cases hx

/-- Claim C3: the ISA ball-valve specification on a 400×400 canvas resolves
center_circle's center to (200, 200), the left triangle's to (170, 200), and
the right triangle's to (230, 200), for every declaration order of the three
layers (and for every value of the √3 parameter, which the centers never
touch). -/
theorem c3_isa_ball_valve (layers : List SemanticLayer)
    (h : layers.Perm [isaCircle, isaLeft, isaRight]) (sqrt3 : ℚ) (g : ShapeMap) :
    ∃ out cc lc rc,
      (generateSemanticSvg sqrt3 g (isaSpec layers)).1 = Except.ok out ∧
      mapGet (generateSemanticSvg sqrt3 g (isaSpec layers)).2 "center_circle" =
        some cc ∧ cc.centerX = 200 ∧ cc.centerY = 200 ∧
      mapGet (generateSemanticSvg sqrt3 g (isaSpec layers)).2 "left" =
        some lc ∧ lc.centerX = 170 ∧ lc.centerY = 200 ∧
      mapGet (generateSemanticSvg sqrt3 g (isaSpec layers)).2 "right" =
        some rc ∧ rc.centerX = 230 ∧ rc.centerY = 200 := by
  rcases perm_three_cases h with rfl | rfl | rfl | rfl | rfl | rfl <;>
    (refine ⟨_, _, _, _, rfl, rfl, ?_, ?_, rfl, ?_, ?_, rfl, ?_, ?_⟩ <;>
      norm_num [isaSpec, isaCircle, isaLeft, isaRight, calculateBounds])

/-- Witness for C3 at the natural declaration order. -/
theorem c3_isa_ball_valve_witness :
    ∃ out cc lc rc,
      (generateSemanticSvg 1 [] (isaSpec [isaCircle, isaLeft, isaRight])).1 =
        Except.ok out ∧
      mapGet (generateSemanticSvg 1 []
        (isaSpec [isaCircle, isaLeft, isaRight])).2 "center_circle" =
        some cc ∧ cc.centerX = 200 ∧ cc.centerY = 200 ∧
      mapGet (generateSemanticSvg 1 []
        (isaSpec [isaCircle, isaLeft, isaRight])).2 "left" =
        some lc ∧ lc.centerX = 170 ∧ lc.centerY = 200 ∧
      mapGet (generateSemanticSvg 1 []
        (isaSpec [isaCircle, isaLeft, isaRight])).2 "right" =
        some rc ∧ rc.centerX = 230 ∧ rc.centerY = 200 :=
  c3_isa_ball_valve [isaCircle, isaLeft, isaRight] (List.Perm.refl _) 1 []

/-- If some pending layer has a dangling referent, while the map keys are
layer ids and every valid referent of a pending layer is already in the map or
appears earlier in the pending list, then the layer loop aborts with the
reference-not-found error naming a dangling referent. -/
theorem runLayers_fails {layers : List SemanticLayer} (sqrt3 cw ch : ℚ) :
    ∀ (ls : List SemanticLayer) (m : ShapeMap) (acc : List CalculatedShape),
      (∀ k ∈ keysOf m, k ∈ idsOf layers) →
      (∀ L ∈ ls, L ∈ layers) →
      (∀ pre L post, ls = pre ++ L :: post → ∀ rid, refId L = some rid →
        rid ∈ idsOf layers → rid ∈ keysOf m ∨ ∃ R, R ∈ pre ∧ R.id = rid) →
      (∃ L, L ∈ ls ∧ ∃ rid, refId L = some rid ∧ rid ∉ idsOf layers) →
      ∃ rid, (∃ L, L ∈ ls ∧ refId L = some rid ∧ rid ∉ idsOf layers) ∧
        (runLayers sqrt3 cw ch ls m acc).1 =
          Except.error ("Reference shape \"" ++ rid ++ "\" not found") := by
  intro ls
  induction ls with
  | nil =>
    intro m acc _ _ _ hmiss
    obtain ⟨L, hL, _⟩ := hmiss
    cases hL
  | cons L0 rest ih =>
    intro m acc hkeys hsub horder hmiss
    have step : ∀ p : Point, calculatePosition m L0 cw ch = Except.ok p →
        (∃ L, L ∈ rest ∧ ∃ rid, refId L = some rid ∧ rid ∉ idsOf layers) →
        ∃ rid, (∃ L, L ∈ L0 :: rest ∧ refId L = some rid ∧ rid ∉ idsOf layers) ∧
          (runLayers sqrt3 cw ch (L0 :: rest) m acc).1 =
            Except.error ("Reference shape \"" ++ rid ++ "\" not found") := by
      intro p hp hmiss2
      set placed : CalculatedShape :=
        ⟨L0.id, p.x, p.y, calculateBounds sqrt3 L0.shape p.x p.y⟩ with hplaced
      have hkeys2 : ∀ k ∈ keysOf (mapSet m L0.id placed), k ∈ idsOf layers := by
        intro k hk
        rw [keysOf_mapSet] at hk
        rcases List.mem_append.1 hk with hk | hk
        · exact hkeys k hk
        · rcases List.mem_singleton.1 hk with rfl
          exact List.mem_map_of_mem (fun l => l.id) (hsub L0 (List.mem_cons_self _ _))
      have hsub2 : ∀ L ∈ rest, L ∈ layers :=
        fun X hX => hsub X (List.mem_cons_of_mem _ hX)
      have horder2 : ∀ pre L post, rest = pre ++ L :: post → ∀ rid,
          refId L = some rid → rid ∈ idsOf layers →
          rid ∈ keysOf (mapSet m L0.id placed) ∨ ∃ R, R ∈ pre ∧ R.id = rid := by
        intro pre L post heq rid hrid hin
        have h1 := horder (L0 :: pre) L post (by rw [heq]; rfl) rid hrid hin
        rcases h1 with h1 | ⟨R, hR, hRid⟩
        · left
          rw [keysOf_mapSet]
          exact List.mem_append.2 (Or.inl h1)
        · rcases List.mem_cons.1 hR with rfl | hR
          · left
            rw [keysOf_mapSet]
            exact List.mem_append.2 (Or.inr (List.mem_singleton.2 hRid.symm))
          · exact Or.inr ⟨R, hR, hRid⟩
      obtain ⟨rid, ⟨L, hL, hLr, hLn⟩, herr⟩ :=
        ih (mapSet m L0.id placed) (acc ++ [placed]) hkeys2 hsub2 horder2 hmiss2
      refine ⟨rid, ⟨L, List.mem_cons_of_mem _ hL, hLr, hLn⟩, ?_⟩
      simp only [runLayers, hp]
      exact herr
    rcases hr0 : refId L0 with _ | rid0
    · obtain ⟨p, hp⟩ := calcPos_ok_of_refId_none m L0 cw ch hr0
      refine step p hp ?_
      obtain ⟨L, hL, rid, hLr, hLn⟩ := hmiss
      rcases List.mem_cons.1 hL with rfl | hL
      · rw [hr0] at hLr
        cases hLr
      · exact ⟨L, hL, rid, hLr, hLn⟩
    · by_cases hin0 : rid0 ∈ idsOf layers
      · have h1 := horder [] L0 rest rfl rid0 hr0 hin0
        rcases h1 with h1 | ⟨R, hR, _⟩
        · obtain ⟨ref, href⟩ := mapGet_mem_keys h1
          have hp := calcPos_relative m L0 cw ch hr0 href
          refine step _ hp ?_
          obtain ⟨L, hL, rid, hLr, hLn⟩ := hmiss
          rcases List.mem_cons.1 hL with rfl | hL
          · rw [hr0] at hLr
            injection hLr with hLr
            subst hLr
            exact absurd hin0 hLn
          · exact ⟨L, hL, rid, hLr, hLn⟩
        · cases hR
      · have hnotkey : rid0 ∉ keysOf m := fun hc => hin0 (hkeys rid0 hc)
        have herr0 := calcPos_relative_missing m L0 cw ch hr0
          (mapGet_none_of_not_mem hnotkey)
        refine ⟨rid0, ⟨L0, List.mem_cons_self _ _, hr0, hin0⟩, ?_⟩
        simp only [runLayers, herr0]

/-- Claim C5 (amended): for every well-formed specification (unique layer ids,
acyclic reference graph) in which some layer's relative Position names an
identifier not present among the layers, the run fails with the
reference-not-found error naming such a missing identifier, and no output is
returned.  (A specification that additionally contains a reference cycle
instead crashes with stack exhaustion — see C4.) -/
theorem c5_unknown_reference (sqrt3 : ℚ) (g : ShapeMap) (spec : SemanticSvgSpec)
    (hnd : (idsOf spec.layers).Nodup) (hac : Acyclic spec.layers)
    (hmiss : ∃ L, L ∈ spec.layers ∧ ∃ rid, refId L = some rid ∧
      rid ∉ idsOf spec.layers) :
    ∃ rid, (∃ L, L ∈ spec.layers ∧ refId L = some rid ∧ rid ∉ idsOf spec.layers) ∧
      (generateSemanticSvg sqrt3 g spec).1 =
        Except.error ("Reference shape \"" ++ rid ++ "\" not found") := by
  obtain ⟨rank, hbound, hrank⟩ := hac
  obtain ⟨st', hrun⟩ := sortGo_success hrank (spec.layers.length + 1) spec.layers
    ⟨[], []⟩ (fun L hL => hL) (fun L hL => Nat.lt_succ_of_lt (hbound L hL))
  obtain ⟨hinv, _, hcomplete, _⟩ :=
    sortGo_sound hrank (spec.layers.length + 1) spec.layers ⟨[], []⟩ st'
      (fun L hL => hL) (sortInv_empty spec.layers) hrun
  obtain ⟨Lm, hLmem, ridm, hLrid, hLnin⟩ := hmiss
  have hLsorted : Lm ∈ st'.sorted := by
    have h1 : Lm.id ∈ idsOf st'.sorted := (hinv.procIff _).1 (hcomplete Lm hLmem)
    obtain ⟨L', hL', hid⟩ := List.mem_map.1 h1
    have h2 : L' = Lm := eq_of_nodup_ids hnd (hinv.sub L' hL') hLmem hid
    exact h2 ▸ hL'
  obtain ⟨rid, ⟨L, hL, hLr, hLn⟩, herr⟩ :=
    runLayers_fails sqrt3 spec.canvasSize.width spec.canvasSize.height
      st'.sorted [] [] (by simp [keysOf]) hinv.sub
      (fun pre L post hsplit rid hrid hin =>
        Or.inr (hinv.ordered pre L post hsplit rid hrid hin))
      ⟨Lm, hLsorted, ridm, hLrid, hLnin⟩
  have hsort : sortLayersByDependencies (spec.layers.length + 1) spec.layers =
      some st'.sorted := by
    simp [sortLayersByDependencies, hrun]
  refine ⟨rid, ⟨L, hinv.sub L hL, hLr, hLn⟩, ?_⟩
  simp only [generateSemanticSvg, hsort]
  exact herr

/-- Counterexample to claim C5 as stated: a specification whose reference
graph has both a dangling reference ("ghost") and a 2-cycle does not fail with
the reference-not-found error naming the missing identifier — it crashes with
the stack-overflow error from the cyclic sort (see C4) before ever resolving a
position. -/
theorem c5_counterexample :
    (generateSemanticSvg 1 [] c5cexSpec).1 =
      Except.error "Maximum call stack size exceeded" ∧
    (generateSemanticSvg 1 [] c5cexSpec).1 ≠
      Except.error "Reference shape \"ghost\" not found" := by
  have hg : processLayer [ghostLayer, cycA, cycB] 4 ghostLayer ⟨[], []⟩ =
      some ⟨[ghostLayer], ["G"]⟩ := rfl
  have hA := (processLayer_cycle_none [ghostLayer, cycA, cycB] rfl rfl 4
    ⟨[ghostLayer], ["G"]⟩ (by decide) (by decide)).1
  have hsort : sortLayersByDependencies 4 [ghostLayer, cycA, cycB] = none := by
    simp only [sortLayersByDependencies, sortGo, hg, hA, Option.map_none']
  have h1 : (generateSemanticSvg 1 [] c5cexSpec).1 =
      Except.error "Maximum call stack size exceeded" := by
    simp [generateSemanticSvg, c5cexSpec, hsort]
  refine ⟨h1, ?_⟩
  rw [h1]
  intro hcon
  injection hcon with hcon
  exact absurd hcon (by decide)

/-- Witness for the amended C5: an acyclic two-layer specification whose
second layer references the nonexistent id "ghost". -/
theorem c5_unknown_reference_witness :
    ∃ rid, (∃ L, L ∈ c5wSpec.layers ∧ refId L = some rid ∧
      rid ∉ idsOf c5wSpec.layers) ∧
      (generateSemanticSvg 1 [] c5wSpec).1 =
        Except.error ("Reference shape \"" ++ rid ++ "\" not found") := by
  refine c5_unknown_reference 1 [] c5wSpec (by decide) ?_
    ⟨ghostLayer, List.mem_cons_of_mem _ (List.mem_cons_self _ _), "ghost", rfl,
      by decide⟩
  refine ⟨fun _ => 0, by decide, ?_⟩
  intro L hL rid hrid hin
  fin_cases hL
  · have h0 : refId isaCircle = none := rfl
    rw [h0] at hrid
    cases hrid
  · have h0 : refId ghostLayer = some "ghost" := rfl
    rw [h0] at hrid
    injection hrid with hrid
    subst hrid
    exact absurd hin (by decide)

/-- Claim C8: running the generator twice in sequence on the same
specification yields the same result both times: each call clears the
`calculatedShapes` map first, so no placement recorded by the first run can
influence the second. -/
theorem c8_rerun_identical (sqrt3 : ℚ) (g0 : ShapeMap) (spec : SemanticSvgSpec) :
    (generateSemanticSvg sqrt3 (generateSemanticSvg sqrt3 g0 spec).2 spec).1 =
      (generateSemanticSvg sqrt3 g0 spec).1 := rfl

end AiSvg
